import Mathlib

/-!
Shallow embedding of the ETF drop-and-top-up backtest (main.py) of the
etf-strategy repository: the price-series loader, the single-run backtest
simulation `run_backtest_simulation`, and the brute-force parameter search
`find_optimal_drop_percentage`.  Prices and monetary amounts are modelled
as rationals, calendar dates as integers (day numbers), and the global
`config` module as an explicit `Config` record.  The pandas frame becomes
a list of (date, close) pairs sorted by date; `random.choice` becomes an
injected index source so that search runs are reproducible.
-/

/-- Trade actions recorded in the simulation history (main.py, the
`action` field of the history dictionaries). -/
inductive TradeAction where
  | BUY
  | TOP_UP
deriving DecidableEq

/-- One row of the trade-history list built by `run_backtest_simulation`.
The two return fields of the most recently appended row are overwritten
on every later simulated day (main.py lines 113-115). -/
structure TradeEvent where
  date : ℤ
  action : TradeAction
  price : ℚ
  shares_traded : ℚ
  total_shares : ℚ
  total_investment : ℚ
  avg_cost : ℚ
  cumulative_return : ℚ
  annualized_return : ℚ
deriving DecidableEq

/-- Reason a simulation run terminated early (main.py lines 117-124); the
source only logs the reason as text, this enumerates the three branches. -/
inductive ExitReason where
  | maxHolding
  | targetReturn
  | capitalExhausted
deriving DecidableEq

/-- The dictionary returned by `run_backtest_simulation` (main.py lines
128-134 and 137-143).  `exit_reason` records which exit branch fired
(the source logs it); it is `none` for the fallback return after the loop
exhausts all days. -/
structure SimResult where
  start_date : ℤ
  end_date : ℤ
  holding_days : ℤ
  final_annualized_return : ℚ
  history : List TradeEvent
  exit_reason : Option ExitReason
deriving DecidableEq

/-- The relevant constants of config.py, passed explicitly. -/
structure Config where
  total_capital : ℚ
  initial_investment : ℚ
  num_top_ups : ℕ
  max_holding_years : ℚ
  target_annualized_return : ℚ

/-- The values from config.py: TOTAL_CAPITAL = 200000,
INITIAL_INVESTMENT = 50000, NUM_TOP_UPS = 3, MAX_HOLDING_YEARS = 1,
TARGET_ANNUALIZED_RETURN = 0.10. -/
def defaultConfig : Config :=
  { total_capital := 200000
    initial_investment := 50000
    num_top_ups := 3
    max_holding_years := 1
    target_annualized_return := 1/10 }

/-- The mutable loop state of `run_backtest_simulation` (main.py lines
58-69): shares held, cash invested, average cost, remaining top-ups and
the trade history.  `top_ups_left` is an integer, as in Python. -/
structure SimState where
  shares : ℚ
  total_investment : ℚ
  avg_cost : ℚ
  top_ups_left : ℤ
  history : List TradeEvent
deriving DecidableEq

/-- Fixed size of one top-up purchase (main.py lines 58-59):
`(TOTAL_CAPITAL - INITIAL_INVESTMENT) / NUM_TOP_UPS`. -/
def top_up_amount (cfg : Config) : ℚ :=
  (cfg.total_capital - cfg.initial_investment) / (cfg.num_top_ups : ℚ)

/-- The top-up check and execution of one simulated day (main.py lines
87-104): if top-ups remain and the close is strictly below
`avg_cost * (1 - drop_percentage)`, buy `top_up_amount` worth of shares,
recompute the weighted average cost and append a TOP_UP event. -/
def topUpStep (cfg : Config) (drop : ℚ) (st : SimState) (d : ℤ) (p : ℚ) :
    SimState :=
  if 0 < st.top_ups_left ∧ p < st.avg_cost * (1 - drop) then
    let amt := top_up_amount cfg
    let shares_to_buy := amt / p
    let shares := st.shares + shares_to_buy
    let ti := st.total_investment + amt
    let ac := ti / shares
    { shares := shares
      total_investment := ti
      avg_cost := ac
      top_ups_left := st.top_ups_left - 1
      history := st.history ++
        [{ date := d, action := TradeAction.TOP_UP, price := p,
           shares_traded := shares_to_buy, total_shares := shares,
           total_investment := ti, avg_cost := ac,
           cumulative_return := 0, annualized_return := 0 }] }
  else st

/-- In-place update of the return fields of the last history row
(main.py lines 113-115, `history[-1][...] = ...`). -/
def updateLast : List TradeEvent → ℚ → ℚ → List TradeEvent
  | [], _, _ => []
  | [e], cr, ar => [{ e with cumulative_return := cr, annualized_return := ar }]
  | e :: e' :: rest, cr, ar => e :: updateLast (e' :: rest) cr ar

/-- The exit-condition evaluation of one simulated day (main.py lines
117-124), in source order: max holding period first, then target
annualized return, then capital exhausted on the last day. -/
def exitCheck (cfg : Config) (holding_days : ℤ) (annualized_return : ℚ)
    (top_ups_left : ℤ) (isLastDay : Bool) : Option ExitReason :=
  if cfg.max_holding_years * 365 ≤ (holding_days : ℚ) then
    some ExitReason.maxHolding
  else if cfg.target_annualized_return ≤ annualized_return then
    some ExitReason.targetReturn
  else if top_ups_left = 0 ∧ isLastDay = true then
    some ExitReason.capitalExhausted
  else none

/-- Result of the state-updating part of one simulated day. -/
structure StepOut where
  st : SimState
  ar : ℚ
  holding : ℤ
deriving DecidableEq

/-- One simulated day before the exit check (main.py lines 87-115):
top-up step, valuation, holding period, simple annualization, and the
in-place update of the last history row. -/
def stepDay (cfg : Config) (drop : ℚ) (firstDate : ℤ) (st : SimState)
    (d : ℤ) (p : ℚ) : StepOut :=
  let st1 := topUpStep cfg drop st d p
  let current_value := st1.shares * p
  let cumulative_return := (current_value - st1.total_investment) / st1.total_investment
  let holding_days := d - firstDate + 1
  let annualized_return :=
    if 0 < holding_days then cumulative_return * (365 / (holding_days : ℚ)) else 0
  { st := { st1 with history := updateLast st1.history cumulative_return annualized_return }
    ar := annualized_return
    holding := holding_days }

/-- The day loop of `run_backtest_simulation` (main.py lines 83-143),
structurally recursive over the remaining trading days.  `lastAr`,
`lastDate` and `lastHolding` carry the values of the most recent
iteration for the fallback return after the loop (lines 137-143). -/
def simLoop (cfg : Config) (drop : ℚ) (firstDate startDate : ℤ) :
    List (ℤ × ℚ) → SimState → ℚ → ℤ → ℤ → SimResult
  | [], st, lastAr, lastDate, lastHolding =>
    { start_date := startDate, end_date := lastDate,
      holding_days := lastHolding, final_annualized_return := lastAr,
      history := st.history, exit_reason := none }
  | (d, p) :: rest, st, _, _, _ =>
    let s := stepDay cfg drop firstDate st d p
    match exitCheck cfg s.holding s.ar s.st.top_ups_left rest.isEmpty with
    | some r =>
      { start_date := startDate, end_date := d, holding_days := s.holding,
        final_annualized_return := s.ar, history := s.st.history,
        exit_reason := some r }
    | none => simLoop cfg drop firstDate startDate rest s.st s.ar d s.holding

/-- The initial BUY event (main.py lines 62-80): the whole initial
investment is placed at the first day's close. -/
def initEvent (cfg : Config) (d0 : ℤ) (p0 : ℚ) : TradeEvent :=
  { date := d0, action := TradeAction.BUY, price := p0,
    shares_traded := cfg.initial_investment / p0,
    total_shares := cfg.initial_investment / p0,
    total_investment := cfg.initial_investment, avg_cost := p0,
    cumulative_return := 0, annualized_return := 0 }

/-- The portfolio state after the initial investment (main.py lines
58-80). -/
def initState (cfg : Config) (d0 : ℤ) (p0 : ℚ) : SimState :=
  { shares := cfg.initial_investment / p0
    total_investment := cfg.initial_investment
    avg_cost := p0
    top_ups_left := (cfg.num_top_ups : ℤ)
    history := [initEvent cfg d0 p0] }

/-- `run_backtest_simulation` (main.py lines 50-143): restrict the series
to dates at or after `start_date`; fewer than 20 remaining days is the
InsufficientData sentinel `none`; otherwise invest the initial amount on
the first day and run the day loop. -/
def run_backtest_simulation (cfg : Config) (df : List (ℤ × ℚ))
    (start_date : ℤ) (drop_percentage : ℚ) : Option SimResult :=
  let trading_days := df.filter (fun r => decide (start_date ≤ r.1))
  if trading_days.length < 20 then none
  else
    match trading_days with
    | [] => none
    | (d0, p0) :: rest =>
      some (simLoop cfg drop_percentage d0 start_date rest
        (initState cfg d0 p0) 0 d0 1)

/-- Trade history of a simulation run, empty when the run returned the
InsufficientData sentinel. -/
def simHistory (cfg : Config) (df : List (ℤ × ℚ)) (start_date : ℤ)
    (drop_percentage : ℚ) : List TradeEvent :=
  (run_backtest_simulation cfg df start_date drop_percentage).elim []
    (fun r => r.history)

/-- Number of TOP_UP events in a simulation result's history. -/
def topUpCount (r : SimResult) : ℕ :=
  (r.history.filter (fun e => decide (e.action = TradeAction.TOP_UP))).length

/-- Outcome of `find_optimal_drop_percentage`: an uncaught IndexError
from `random.choice` on an empty pool, the `None` sentinel for no valid
results, or the selected threshold. -/
inductive SearchOutcome where
  | indexError
  | noValidResult
  | found (threshold : ℚ)
deriving DecidableEq

/-- The threshold grid `np.arange(0.01, 0.21, 0.01)` (main.py line 150):
the twenty values 0.01, 0.02, ..., 0.20 in ascending order. -/
def dropGrid : List ℚ :=
  (List.range 20).map (fun i => ((i : ℚ) + 1) / 100)

/-- The candidate start-date pool `df.index[:-20]` (main.py line 154):
all dates except the last twenty. -/
def startPool (df : List (ℤ × ℚ)) : List ℤ :=
  (df.map Prod.fst).take (df.length - 20)

/-- Arithmetic mean, `np.mean` on a nonempty list (main.py line 166). -/
def listMean (l : List ℚ) : ℚ := l.sum / (l.length : ℚ)

/-- The inner sampling loop of `find_optimal_drop_percentage` (main.py
lines 157-163) for one threshold: draw `runs` start dates via the
injected index source `rng`, run the simulation for each and collect the
final annualized returns of the successful runs.  `random.choice` on an
empty pool raises IndexError, modelled as `Except.error`. -/
def collectReturns (cfg : Config) (drop : ℚ) (df : List (ℤ × ℚ))
    (pool : List ℤ) (rng : ℕ → ℕ) (base : ℕ) :
    ℕ → Except Unit (List ℚ)
  | 0 => Except.ok []
  | n + 1 =>
    match pool.get? (rng base % pool.length) with
    | none => Except.error ()
    | some start =>
      match collectReturns cfg drop df pool rng (base + 1) n with
      | Except.error e => Except.error e
      | Except.ok rs =>
        match run_backtest_simulation cfg df start drop with
        | none => Except.ok rs
        | some r => Except.ok (r.final_annualized_return :: rs)

/-- The outer grid loop of `find_optimal_drop_percentage` (main.py lines
156-168): for each threshold record (threshold, mean return) when at
least one sample succeeded. -/
def searchLoop (cfg : Config) (runs : ℕ) (df : List (ℤ × ℚ))
    (pool : List ℤ) (rng : ℕ → ℕ) :
    List ℚ → ℕ → Except Unit (List (ℚ × ℚ))
  | [], _ => Except.ok []
  | t :: ts, base =>
    match collectReturns cfg t df pool rng base runs with
    | Except.error e => Except.error e
    | Except.ok rs =>
      match searchLoop cfg runs df pool rng ts (base + runs) with
      | Except.error e => Except.error e
      | Except.ok rest =>
        if rs = [] then Except.ok rest
        else Except.ok ((t, listMean rs) :: rest)

/-- Results table of the search (main.py `results`), or the IndexError. -/
def searchResults (cfg : Config) (runs : ℕ) (df : List (ℤ × ℚ))
    (rng : ℕ → ℕ) : Except Unit (List (ℚ × ℚ)) :=
  searchLoop cfg runs df (startPool df) rng dropGrid 0

/-- Python's `max(results, key=...)` over the second component: keeps
the current maximum and replaces it only on a strictly larger key, so the
first maximal element wins. -/
def pyMaxBy : (ℚ × ℚ) → List (ℚ × ℚ) → (ℚ × ℚ)
  | acc, [] => acc
  | acc, y :: ys => pyMaxBy (if acc.2 < y.2 then y else acc) ys

/-- `find_optimal_drop_percentage` (main.py lines 145-178): grid search
with random start dates; `None` when the results table is empty,
otherwise the threshold of the row with the maximal mean return. -/
def find_optimal_drop_percentage (cfg : Config) (runs : ℕ)
    (df : List (ℤ × ℚ)) (rng : ℕ → ℕ) : SearchOutcome :=
  match searchResults cfg runs df rng with
  | Except.error _ => SearchOutcome.indexError
  | Except.ok [] => SearchOutcome.noValidResult
  | Except.ok (x :: xs) => SearchOutcome.found (pyMaxBy x xs).1

/-- `load_data` (main.py lines 24-48): `none` models the FileNotFoundError
branch; otherwise keep the rows within the five-year trailing window,
sort ascending by date and keep the close column.  The source rows are
the collaborator-provided table, `none` a missing file. -/
def load_data (src : Option (List (ℤ × ℚ))) (now : ℤ) :
    Option (List (ℤ × ℚ)) :=
  match src with
  | none => none
  | some rows =>
    let cutoff := now - 5 * 365
    let filtered := rows.filter (fun r => decide (cutoff ≤ r.1))
    some (filtered.insertionSort (fun a b => a.1 ≤ b.1))

/-- The concrete series of the spec's first scenario: 25 consecutive
daily closes starting at 100.0, dropping linearly to 80.0 by day 20,
then flat. -/
def scenarioSeries : List (ℤ × ℚ) :=
  (List.range 25).map (fun i => ((i : ℤ), if i ≤ 20 then (100 : ℚ) - i else 80))

/-- A 20-day flat series at close 100, from day 0. -/
def flat20 : List (ℤ × ℚ) :=
  (List.range 20).map (fun i => ((i : ℤ), (100 : ℚ)))

/-- A 21-day flat series at close 100, from day 0. -/
def flat21 : List (ℤ × ℚ) :=
  (List.range 21).map (fun i => ((i : ℤ), (100 : ℚ)))

/-- A 20-day series with one initial close of 100 followed by closes of
90: triggers exactly one top-up on day 1. -/
def oneDropSeries : List (ℤ × ℚ) :=
  (List.range 20).map (fun i => ((i : ℤ), if i = 0 then (100 : ℚ) else 90))

/-- A 21-point series whose second trading day is more than a year after
the first, so every simulation started at day 0 exits at once with the
max-holding condition; closes are flat at 100. -/
def w8Series : List (ℤ × ℚ) :=
  (0, 100) :: (List.range 20).map (fun i => ((365 + i : ℤ), 100))

/-- A small-valued configuration (capital 4, initial stake 1, three
top-ups of 1 each) used to instantiate general theorems on concrete
runs with small rationals. -/
def smallConfig : Config :=
  { total_capital := 4
    initial_investment := 1
    num_top_ups := 3
    max_holding_years := 1
    target_annualized_return := 1/10 }

/-- A 20-point series for `smallConfig`: close 1 on day 0, then closes
of 9/10 starting 365 days later, so day 1 performs one top-up and the
run exits with the max-holding condition on that same day. -/
def w6Series : List (ℤ × ℚ) :=
  (0, 1) :: (List.range 19).map (fun i => ((365 + i : ℤ), 9/10))

/-- The TOP_UP event that the `smallConfig` run over `w6Series` appends
on day 365, with the return fields as of the exit day. -/
def w6e : TradeEvent :=
  { date := 365, action := TradeAction.TOP_UP, price := 9/10,
    shares_traded := 10/9, total_shares := 19/9, total_investment := 2,
    avg_cost := 18/19, cumulative_return := -(1/20),
    annualized_return := -(73/1464) }

/-- Annualized return recorded on the last history row (zero for an
empty history). -/
def lastAnnualized : List TradeEvent → ℚ
  | [] => 0
  | [e] => e.annualized_return
  | _ :: e2 :: rest => lastAnnualized (e2 :: rest)

/-- Date of the last row of a series, with a default for the empty
series. -/
def lastDateD : List (ℤ × ℚ) → ℤ → ℤ
  | [], dflt => dflt
  | (x, _) :: rest, _ => lastDateD rest x

/-- Date of the first row of a series, with a default for the empty
series. -/
def firstDateD : List (ℤ × ℚ) → ℤ → ℤ
  | [], dflt => dflt
  | (x, _) :: _, _ => x

deriving instance DecidableEq for Except

/-- Equality of all TradeEvent fields except the two return fields that
the in-place update of the last row overwrites. -/
def CoreEq (a b : TradeEvent) : Prop :=
  a.date = b.date ∧ a.action = b.action ∧ a.price = b.price ∧
  a.shares_traded = b.shares_traded ∧ a.total_shares = b.total_shares ∧
  a.total_investment = b.total_investment ∧ a.avg_cost = b.avg_cost

/-- Loop invariant of the simulation state: some k ≤ NUM_TOP_UPS top-ups
have been executed, the invested total is the initial investment plus k
fixed top-up amounts, k top-ups remain to be subtracted from the budget,
the history records exactly k TOP_UP events, and every history row's
total is the initial investment plus some j ≤ NUM_TOP_UPS top-up
amounts. -/
def InvestInv (cfg : Config) (st : SimState) : Prop :=
  ∃ k : ℕ, k ≤ cfg.num_top_ups ∧
    st.total_investment = cfg.initial_investment + (k : ℚ) * top_up_amount cfg ∧
    st.top_ups_left = (cfg.num_top_ups : ℤ) - (k : ℤ) ∧
    st.history.countP (fun e => decide (e.action = TradeAction.TOP_UP)) = k ∧
    ∀ e ∈ st.history, ∃ j : ℕ, j ≤ cfg.num_top_ups ∧
      e.total_investment = cfg.initial_investment + (j : ℚ) * top_up_amount cfg

/-- Round-trip property of a history: every TOP_UP row stores the
weighted average cost recomputed from its own totals. -/
def AvgCostInv (h : List TradeEvent) : Prop :=
  ∀ e ∈ h, e.action = TradeAction.TOP_UP →
    e.avg_cost = e.total_investment / e.total_shares

set_option maxRecDepth 40000

/-- C1, counterexample: on the spec's 25-day falling scenario with the
configured capital split and a 5% drop threshold, the run does not
contain exactly one TOP_UP event; it contains three.  After the first
top-up the average cost falls to about 96.9 and the price keeps falling
past each successively lower trigger level, so the second and third
top-ups fire as well. -/
theorem scenario_topUp_count_not_one :
    (run_backtest_simulation defaultConfig scenarioSeries 0 (1/20)).map topUpCount ≠ some 1 ∧
    (run_backtest_simulation defaultConfig scenarioSeries 0 (1/20)).map topUpCount = some 3 := by
  constructor
  · with_unfolding_all decide
  · with_unfolding_all decide

/-- C1, amended: the 25-day falling scenario produces exactly three
TOP_UP events, on days 6, 8 and 10; the first fires on the first day
whose close is strictly below 95 (day 6, close 94 — day 5's close of
exactly 95 does not fire the strict comparison), and total investment
after the three top-ups reaches 100000, 150000 and 200000.  Rationals
are pinned by numerator and denominator. -/
theorem scenario_history_three_topUps :
    (simHistory defaultConfig scenarioSeries 0 (1/20)).map
      (fun e => (e.date, e.action, e.total_investment.num, e.total_investment.den))
    = [(0, TradeAction.BUY, 50000, 1), (6, TradeAction.TOP_UP, 100000, 1),
       (8, TradeAction.TOP_UP, 150000, 1), (10, TradeAction.TOP_UP, 200000, 1)] := by
  with_unfolding_all decide

/-- The grid loop raises the modelled IndexError as soon as the start
pool is empty and at least one sample is requested for the first
threshold. -/
theorem searchLoop_empty_pool (cfg : Config) (runs : ℕ) (df : List (ℤ × ℚ))
    (rng : ℕ → ℕ) (base : ℕ) (h2 : 0 < runs) (t : ℚ) (ts : List ℚ) :
    searchLoop cfg runs df [] rng (t :: ts) base = Except.error () := by
  obtain ⟨m, rfl⟩ := Nat.exists_eq_succ_of_ne_zero (Nat.pos_iff_ne_zero.mp h2)
  simp [searchLoop, collectReturns]

/-- C2: for every series shorter than 21 points the start-date pool
`df.index[:-20]` is empty, and the first call of the modelled
`random.choice` raises IndexError instead of reaching the
`return None` branch, for any positive number of backtest runs. -/
theorem search_short_series_raises (cfg : Config) (runs : ℕ)
    (df : List (ℤ × ℚ)) (rng : ℕ → ℕ) (h1 : df.length ≤ 20) (h2 : 0 < runs) :
    find_optimal_drop_percentage cfg runs df rng = SearchOutcome.indexError := by
  have hpool : startPool df = [] := by
    unfold startPool
    rw [Nat.sub_eq_zero_of_le h1]
    simp
  have hne : dropGrid ≠ [] := by with_unfolding_all decide
  obtain ⟨t, ts, hg⟩ : ∃ t ts, dropGrid = t :: ts := by
    cases hg : dropGrid with
    | nil => exact absurd hg hne
    | cons t ts => exact ⟨t, ts, rfl⟩
  unfold find_optimal_drop_percentage searchResults
  rw [hpool, hg, searchLoop_empty_pool cfg runs df rng 0 h2 t ts]

/-- C2, witness: the 20-point flat series with 100 runs per threshold. -/
theorem search_short_series_raises_witness :
    find_optimal_drop_percentage defaultConfig 100 flat20 (fun _ => 0)
    = SearchOutcome.indexError :=
  search_short_series_raises defaultConfig 100 flat20 (fun _ => 0)
    (by with_unfolding_all decide) (by decide)

/-- C3: the exit conditions are evaluated in the fixed source order:
the max-holding check first, then the target-return check, then the
capital-exhausted check, first match winning; in particular on a day
where the max-holding and target-return conditions both hold the run
exits with the max-holding reason. -/
theorem exitCheck_priority (cfg : Config) (hd : ℤ) (ar : ℚ) (tl : ℤ)
    (isLast : Bool) :
    (cfg.max_holding_years * 365 ≤ (hd : ℚ) →
      exitCheck cfg hd ar tl isLast = some ExitReason.maxHolding) ∧
    (¬ cfg.max_holding_years * 365 ≤ (hd : ℚ) →
      cfg.target_annualized_return ≤ ar →
      exitCheck cfg hd ar tl isLast = some ExitReason.targetReturn) ∧
    (¬ cfg.max_holding_years * 365 ≤ (hd : ℚ) →
      ¬ cfg.target_annualized_return ≤ ar → tl = 0 → isLast = true →
      exitCheck cfg hd ar tl isLast = some ExitReason.capitalExhausted) ∧
    (¬ cfg.max_holding_years * 365 ≤ (hd : ℚ) →
      ¬ cfg.target_annualized_return ≤ ar → ¬ (tl = 0 ∧ isLast = true) →
      exitCheck cfg hd ar tl isLast = none) := by
  unfold exitCheck
  refine ⟨fun ha => ?_, fun ha hb => ?_, fun ha hb h0 hl => ?_, fun ha hb hc => ?_⟩
  · rw [if_pos ha]
  · rw [if_neg ha, if_pos hb]
  · rw [if_neg ha, if_neg hb, if_pos ⟨h0, hl⟩]
  · rw [if_neg ha, if_neg hb, if_neg hc]

/-- C3, witness: a day where both the max-holding and the target-return
conditions hold exits with the max-holding reason. -/
theorem exitCheck_priority_witness :
    exitCheck defaultConfig 365 (1/2) 3 false = some ExitReason.maxHolding :=
  (exitCheck_priority defaultConfig 365 (1/2) 3 false).1 (by norm_num [defaultConfig])

/-- C4: the simulation returns the InsufficientData sentinel `none`
exactly when the series restricted to dates at or after the requested
start date has fewer than 20 points; with 20 or more points it always
returns a result. -/
theorem simulation_none_iff_short (cfg : Config) (df : List (ℤ × ℚ))
    (start_date : ℤ) (drop_percentage : ℚ) :
    run_backtest_simulation cfg df start_date drop_percentage = none ↔
      (df.filter (fun r => decide (start_date ≤ r.1))).length < 20 := by
  unfold run_backtest_simulation
  by_cases h : (df.filter (fun r => decide (start_date ≤ r.1))).length < 20
  · simp [h]
  · cases htd : df.filter (fun r => decide (start_date ≤ r.1)) with
    | nil => rw [htd] at h; simp at h
    | cons a rest =>
      obtain ⟨d0, p0⟩ := a
      rw [htd] at h
      simp [htd, h]
      omega

/-- Updating the return fields of the last row keeps the history
nonempty. -/
theorem updateLast_ne_nil (cr ar : ℚ) :
    ∀ (h : List TradeEvent), h ≠ [] → updateLast h cr ar ≠ []
  | [], hne => absurd rfl hne
  | [e], _ => by simp [updateLast]
  | e :: e2 :: rest, _ => by simp [updateLast]

/-- Updating the return fields of the last row preserves the dates. -/
theorem updateLast_map_date (cr ar : ℚ) :
    ∀ (h : List TradeEvent),
      (updateLast h cr ar).map (fun e => e.date) = h.map (fun e => e.date)
  | [] => rfl
  | [e] => by simp [updateLast]
  | e :: e2 :: rest => by
    have ih := updateLast_map_date cr ar (e2 :: rest)
    simp only [updateLast, List.map_cons] at ih ⊢
    rw [ih]

/-- Updating the return fields of the last row preserves the number of
TOP_UP rows. -/
theorem updateLast_countP (cr ar : ℚ) :
    ∀ (h : List TradeEvent),
      (updateLast h cr ar).countP (fun e => decide (e.action = TradeAction.TOP_UP))
      = h.countP (fun e => decide (e.action = TradeAction.TOP_UP))
  | [] => rfl
  | [e] => by simp [updateLast, List.countP_cons]
  | e :: e2 :: rest => by
    simp only [updateLast, List.countP_cons]
    rw [updateLast_countP cr ar (e2 :: rest), List.countP_cons]

/-- Every row of the updated history agrees with a row of the original
history on every field except the two return fields. -/
theorem updateLast_mem (cr ar : ℚ) :
    ∀ (h : List TradeEvent) (e' : TradeEvent), e' ∈ updateLast h cr ar →
      ∃ e ∈ h, CoreEq e' e
  | [], e', hm => by simp [updateLast] at hm
  | [e], e', hm => by
    simp only [updateLast, List.mem_singleton] at hm
    subst hm
    exact ⟨e, by simp, rfl, rfl, rfl, rfl, rfl, rfl, rfl⟩
  | e :: e2 :: rest, e', hm => by
    simp only [updateLast, List.mem_cons] at hm
    rcases hm with rfl | hm
    · exact ⟨e', by simp, rfl, rfl, rfl, rfl, rfl, rfl, rfl⟩
    · obtain ⟨e0, he0, hc⟩ := updateLast_mem cr ar (e2 :: rest) e' hm
      exact ⟨e0, List.mem_cons_of_mem _ he0, hc⟩

/-- Updating the return fields of the last row of a nonempty history
makes its last annualized return the updated value. -/
theorem updateLast_lastAnnualized (cr ar : ℚ) :
    ∀ (h : List TradeEvent), h ≠ [] →
      lastAnnualized (updateLast h cr ar) = ar
  | [], hne => absurd rfl hne
  | [e], _ => by simp [updateLast, lastAnnualized]
  | e :: e2 :: rest, _ => by
    have ih := updateLast_lastAnnualized cr ar (e2 :: rest) (by simp)
    cases hu : updateLast (e2 :: rest) cr ar with
    | nil => exact absurd hu (updateLast_ne_nil cr ar (e2 :: rest) (by simp))
    | cons u us =>
      rw [hu] at ih
      simp only [updateLast, hu, lastAnnualized]
      exact ih

/-- The top-up step keeps the history nonempty. -/
theorem topUpStep_history_ne_nil (cfg : Config) (drop : ℚ) (st : SimState)
    (d : ℤ) (p : ℚ) (hne : st.history ≠ []) :
    (topUpStep cfg drop st d p).history ≠ [] := by
  unfold topUpStep
  split
  · simp
  · exact hne

/-- The top-up step never increases the remaining top-up budget, and
cannot make a nonnegative budget negative. -/
theorem topUpStep_top_ups_left (cfg : Config) (drop : ℚ) (st : SimState)
    (d : ℤ) (p : ℚ) :
    (topUpStep cfg drop st d p).top_ups_left ≤ st.top_ups_left ∧
    (0 ≤ st.top_ups_left → 0 ≤ (topUpStep cfg drop st d p).top_ups_left) := by
  unfold topUpStep
  split
  case isTrue hc =>
    have h1 := hc.1
    refine ⟨?_, fun h0 => ?_⟩
    · show st.top_ups_left - 1 ≤ st.top_ups_left
      omega
    · show (0 : ℤ) ≤ st.top_ups_left - 1
      omega
  case isFalse => exact ⟨le_refl _, fun h0 => h0⟩

/-- The top-up step preserves the investment invariant, incrementing the
top-up count when it fires. -/
theorem topUpStep_investInv (cfg : Config) (drop : ℚ) (st : SimState)
    (d : ℤ) (p : ℚ) (h : InvestInv cfg st) :
    InvestInv cfg (topUpStep cfg drop st d p) := by
  obtain ⟨k, hk, hti, htl, hcnt, hhist⟩ := h
  unfold topUpStep
  split
  case isTrue hc =>
    have hk1 : k + 1 ≤ cfg.num_top_ups := by
      have h0 : (0 : ℤ) < (cfg.num_top_ups : ℤ) - (k : ℤ) := htl ▸ hc.1
      omega
    refine ⟨k + 1, hk1, ?_, ?_, ?_, ?_⟩
    · show st.total_investment + top_up_amount cfg
        = cfg.initial_investment + ((k + 1 : ℕ) : ℚ) * top_up_amount cfg
      rw [hti]; push_cast; ring
    · show st.top_ups_left - 1 = (cfg.num_top_ups : ℤ) - ((k + 1 : ℕ) : ℤ)
      rw [htl]; push_cast; ring
    · show (st.history ++ [_]).countP _ = k + 1
      rw [List.countP_append, hcnt]
      simp [List.countP_cons]
    · intro e he
      rcases List.mem_append.mp he with he | he
      · exact hhist e he
      · rw [List.mem_singleton.mp he]
        exact ⟨k + 1, hk1, by
          show st.total_investment + top_up_amount cfg
            = cfg.initial_investment + ((k + 1 : ℕ) : ℚ) * top_up_amount cfg
          rw [hti]; push_cast; ring⟩
  case isFalse => exact ⟨k, hk, hti, htl, hcnt, hhist⟩

/-- A full simulated day preserves the investment invariant: the in-place
return update does not touch the monetary fields. -/
theorem stepDay_investInv (cfg : Config) (drop : ℚ) (firstDate : ℤ)
    (st : SimState) (d : ℤ) (p : ℚ) (h : InvestInv cfg st) :
    InvestInv cfg (stepDay cfg drop firstDate st d p).st := by
  obtain ⟨k, hk, hti, htl, hcnt, hhist⟩ := topUpStep_investInv cfg drop st d p h
  refine ⟨k, hk, hti, htl, ?_, ?_⟩
  · show (updateLast _ _ _).countP _ = k
    rw [updateLast_countP]
    exact hcnt
  · intro e he
    obtain ⟨e0, he0, hc⟩ := updateLast_mem _ _ _ e he
    obtain ⟨j, hj, hje⟩ := hhist e0 he0
    exact ⟨j, hj, by rw [hc.2.2.2.2.2.1]; exact hje⟩

/-- The top-up step preserves the average-cost round-trip property: the
TOP_UP row it appends stores exactly total_investment / total_shares. -/
theorem topUpStep_avgCostInv (cfg : Config) (drop : ℚ) (st : SimState)
    (d : ℤ) (p : ℚ) (h : AvgCostInv st.history) :
    AvgCostInv (topUpStep cfg drop st d p).history := by
  unfold topUpStep
  split
  case isTrue hc =>
    intro e he _
    rcases List.mem_append.mp he with he | he
    · exact h e he (by assumption)
    · rw [List.mem_singleton.mp he]
  case isFalse => exact h

/-- A full simulated day preserves the average-cost round-trip
property. -/
theorem stepDay_avgCostInv (cfg : Config) (drop : ℚ) (firstDate : ℤ)
    (st : SimState) (d : ℤ) (p : ℚ) (h : AvgCostInv st.history) :
    AvgCostInv (stepDay cfg drop firstDate st d p).st.history := by
  have h1 := topUpStep_avgCostInv cfg drop st d p h
  intro e he hact
  obtain ⟨e0, he0, hc⟩ := updateLast_mem _ _ _ e he
  obtain ⟨hdt, hac, _, _, hts, hti, hco⟩ := hc
  rw [hco, hti, hts]
  exact h1 e0 he0 (hac ▸ hact)

/-- A successful simulation is the day loop started from the initial
state over the tail of the filtered series. -/
theorem run_eq_simLoop (cfg : Config) (df : List (ℤ × ℚ)) (start_date : ℤ)
    (drop_percentage : ℚ) (r : SimResult)
    (hrun : run_backtest_simulation cfg df start_date drop_percentage = some r) :
    ∃ d0 p0 rest,
      df.filter (fun x => decide (start_date ≤ x.1)) = (d0, p0) :: rest ∧
      r = simLoop cfg drop_percentage d0 start_date rest (initState cfg d0 p0) 0 d0 1 := by
  simp only [run_backtest_simulation] at hrun
  by_cases h : (df.filter (fun x => decide (start_date ≤ x.1))).length < 20
  · rw [if_pos h] at hrun
    exact absurd hrun (by simp)
  · rw [if_neg h] at hrun
    cases htd : df.filter (fun x => decide (start_date ≤ x.1)) with
    | nil => rw [htd] at hrun; exact absurd hrun (by simp)
    | cons a rest =>
      obtain ⟨d0, p0⟩ := a
      rw [htd] at hrun
      simp only [Option.some.injEq] at hrun
      exact ⟨d0, p0, rest, rfl, hrun.symm⟩

/-- The initial state satisfies the investment invariant with zero
top-ups executed. -/
theorem initState_investInv (cfg : Config) (d0 : ℤ) (p0 : ℚ) :
    InvestInv cfg (initState cfg d0 p0) := by
  refine ⟨0, Nat.zero_le _, by simp [initState], by simp [initState], ?_, ?_⟩
  · simp [initState, initEvent, List.countP_cons]
  · intro e he
    simp only [initState, List.mem_singleton] at he
    exact ⟨0, Nat.zero_le _, by rw [he]; simp [initEvent]⟩

/-- Along the whole day loop, every history row's invested total is the
initial investment plus at most NUM_TOP_UPS top-up amounts, and the
history holds at most NUM_TOP_UPS TOP_UP rows. -/
theorem simLoop_investInv (cfg : Config) (drop : ℚ) (fd sd : ℤ) :
    ∀ (days : List (ℤ × ℚ)) (st : SimState) (ann : ℚ) (ld lh : ℤ),
      InvestInv cfg st →
      (∀ e ∈ (simLoop cfg drop fd sd days st ann ld lh).history,
          ∃ j : ℕ, j ≤ cfg.num_top_ups ∧
            e.total_investment = cfg.initial_investment + (j : ℚ) * top_up_amount cfg) ∧
      (simLoop cfg drop fd sd days st ann ld lh).history.countP
          (fun e => decide (e.action = TradeAction.TOP_UP)) ≤ cfg.num_top_ups
  | [], st, ann, ld, lh, h => by
    obtain ⟨k, hk, _, _, hcnt, hh⟩ := h
    refine ⟨hh, ?_⟩
    show st.history.countP _ ≤ cfg.num_top_ups
    rw [hcnt]; exact hk
  | (d, p) :: rest, st, ann, ld, lh, h => by
    have h2 := stepDay_investInv cfg drop fd st d p h
    simp only [simLoop]
    cases hE : exitCheck cfg (stepDay cfg drop fd st d p).holding
        (stepDay cfg drop fd st d p).ar
        (stepDay cfg drop fd st d p).st.top_ups_left rest.isEmpty with
    | some reason =>
      obtain ⟨k, hk, _, _, hcnt, hh⟩ := h2
      refine ⟨hh, ?_⟩
      show (stepDay cfg drop fd st d p).st.history.countP _ ≤ cfg.num_top_ups
      rw [hcnt]; exact hk
    | none =>
      exact simLoop_investInv cfg drop fd sd rest _ _ _ _ h2

/-- Along the whole day loop, every TOP_UP row stores the weighted
average cost recomputed from its own totals. -/
theorem simLoop_avgCostInv (cfg : Config) (drop : ℚ) (fd sd : ℤ) :
    ∀ (days : List (ℤ × ℚ)) (st : SimState) (ann : ℚ) (ld lh : ℤ),
      AvgCostInv st.history →
      AvgCostInv (simLoop cfg drop fd sd days st ann ld lh).history
  | [], st, ann, ld, lh, h => h
  | (d, p) :: rest, st, ann, ld, lh, h => by
    have h2 := stepDay_avgCostInv cfg drop fd st d p h
    simp only [simLoop]
    cases hE : exitCheck cfg (stepDay cfg drop fd st d p).holding
        (stepDay cfg drop fd st d p).ar
        (stepDay cfg drop fd st d p).st.top_ups_left rest.isEmpty with
    | some reason => exact h2
    | none => exact simLoop_avgCostInv cfg drop fd sd rest _ _ _ _ h2

/-- Any invested total of the invariant form stays within the configured
total capital. -/
theorem invest_le_capital (cfg : Config)
    (h1 : cfg.initial_investment ≤ cfg.total_capital)
    (h2 : 0 < cfg.num_top_ups) (j : ℕ) (hj : j ≤ cfg.num_top_ups) :
    cfg.initial_investment + (j : ℚ) * top_up_amount cfg ≤ cfg.total_capital := by
  have hn : (0 : ℚ) < (cfg.num_top_ups : ℚ) := by exact_mod_cast h2
  have hamt : 0 ≤ top_up_amount cfg := by
    unfold top_up_amount
    exact div_nonneg (by linarith) (le_of_lt hn)
  have hjn : (j : ℚ) ≤ (cfg.num_top_ups : ℚ) := by exact_mod_cast hj
  have hmul : (j : ℚ) * top_up_amount cfg
      ≤ (cfg.num_top_ups : ℚ) * top_up_amount cfg :=
    mul_le_mul_of_nonneg_right hjn hamt
  have heq : (cfg.num_top_ups : ℚ) * top_up_amount cfg
      = cfg.total_capital - cfg.initial_investment := by
    unfold top_up_amount
    field_simp
  linarith

/-- C5: in every simulation run, each history row's invested total is
the initial investment plus k top-up amounts for some k bounded by
NUM_TOP_UPS, hence never exceeds the configured total capital; the
history holds at most NUM_TOP_UPS TOP_UP rows (so the remaining budget
NUM_TOP_UPS - k never goes negative); and the per-day top-up step never
increases the remaining budget nor drives a nonnegative budget
negative. -/
theorem simulation_investment_invariants (cfg : Config) (df : List (ℤ × ℚ))
    (start_date : ℤ) (drop_percentage : ℚ)
    (h1 : cfg.initial_investment ≤ cfg.total_capital)
    (h2 : 0 < cfg.num_top_ups) :
    (∀ e ∈ simHistory cfg df start_date drop_percentage,
        (∃ k : ℕ, k ≤ cfg.num_top_ups ∧
            e.total_investment
              = cfg.initial_investment + (k : ℚ) * top_up_amount cfg) ∧
        e.total_investment ≤ cfg.total_capital) ∧
    (simHistory cfg df start_date drop_percentage).countP
        (fun e => decide (e.action = TradeAction.TOP_UP)) ≤ cfg.num_top_ups ∧
    (∀ (st : SimState) (d : ℤ) (p : ℚ),
        (topUpStep cfg drop_percentage st d p).top_ups_left ≤ st.top_ups_left ∧
        (0 ≤ st.top_ups_left →
          0 ≤ (topUpStep cfg drop_percentage st d p).top_ups_left)) := by
  unfold simHistory
  cases hrun : run_backtest_simulation cfg df start_date drop_percentage with
  | none =>
    exact ⟨by simp, by simp,
      fun st d p => topUpStep_top_ups_left cfg drop_percentage st d p⟩
  | some r =>
    obtain ⟨d0, p0, rest, htd, hr⟩ :=
      run_eq_simLoop cfg df start_date drop_percentage r hrun
    subst hr
    obtain ⟨hall, hcnt⟩ := simLoop_investInv cfg drop_percentage d0 start_date
      rest (initState cfg d0 p0) 0 d0 1 (initState_investInv cfg d0 p0)
    refine ⟨?_, ?_,
      fun st d p => topUpStep_top_ups_left cfg drop_percentage st d p⟩
    · intro e he
      obtain ⟨j, hj, hje⟩ := hall e he
      exact ⟨⟨j, hj, hje⟩, hje ▸ invest_le_capital cfg h1 h2 j hj⟩
    · exact hcnt

/-- C5, witness: the small-valued run over `w6Series` performs at most
NUM_TOP_UPS top-ups. -/
theorem simulation_investment_invariants_witness :
    (simHistory smallConfig w6Series 0 (1/20)).countP
        (fun e => decide (e.action = TradeAction.TOP_UP))
      ≤ smallConfig.num_top_ups :=
  (simulation_investment_invariants smallConfig w6Series 0 (1/20)
    (by norm_num [smallConfig]) (by norm_num [smallConfig])).2.1

/-- C6: every TOP_UP row of every simulation run stores exactly the
weighted average cost total_investment / total_shares recomputed from
its own stored totals. -/
theorem topUp_avg_cost_round_trip (cfg : Config) (df : List (ℤ × ℚ))
    (start_date : ℤ) (drop_percentage : ℚ) :
    ∀ e ∈ simHistory cfg df start_date drop_percentage,
      e.action = TradeAction.TOP_UP →
      e.avg_cost = e.total_investment / e.total_shares := by
  unfold simHistory
  cases hrun : run_backtest_simulation cfg df start_date drop_percentage with
  | none => simp
  | some r =>
    obtain ⟨d0, p0, rest, htd, hr⟩ :=
      run_eq_simLoop cfg df start_date drop_percentage r hrun
    subst hr
    have hinit : AvgCostInv (initState cfg d0 p0).history := by
      intro e he hact
      simp only [initState, List.mem_singleton] at he
      rw [he] at hact
      exact absurd hact (by simp [initEvent])
    exact simLoop_avgCostInv cfg drop_percentage d0 start_date rest _ 0 d0 1 hinit

/-- C6, witness: the TOP_UP row of the small-valued run stores 18/19,
which is exactly 2 divided by 19/9. -/
theorem topUp_avg_cost_round_trip_witness :
    w6e.avg_cost = w6e.total_investment / w6e.total_shares :=
  topUp_avg_cost_round_trip smallConfig w6Series 0 (1/20) w6e
    (by with_unfolding_all decide) (by rfl)

/-- The simulation returns a result whenever the filtered series has at
least 20 points. -/
theorem run_isSome_of_length (cfg : Config) (df : List (ℤ × ℚ))
    (start_date : ℤ) (drop_percentage : ℚ)
    (h20 : 20 ≤ (df.filter (fun r => decide (start_date ≤ r.1))).length) :
    (run_backtest_simulation cfg df start_date drop_percentage).isSome = true := by
  simp only [run_backtest_simulation]
  rw [if_neg (by omega)]
  cases htd : df.filter (fun r => decide (start_date ≤ r.1)) with
  | nil => rw [htd] at h20; simp at h20
  | cons a rest =>
    obtain ⟨d0, p0⟩ := a
    simp

/-- A full simulated day keeps the history nonempty. -/
theorem stepDay_history_ne_nil (cfg : Config) (drop : ℚ) (firstDate : ℤ)
    (st : SimState) (d : ℤ) (p : ℚ) (h : st.history ≠ []) :
    (stepDay cfg drop firstDate st d p).st.history ≠ [] :=
  updateLast_ne_nil _ _ _ (topUpStep_history_ne_nil cfg drop st d p h)

/-- After a simulated day, the last history row's annualized return is
exactly the day's annualized return. -/
theorem stepDay_lastAnnualized (cfg : Config) (drop : ℚ) (firstDate : ℤ)
    (st : SimState) (d : ℤ) (p : ℚ) (h : st.history ≠ []) :
    lastAnnualized (stepDay cfg drop firstDate st d p).st.history
      = (stepDay cfg drop firstDate st d p).ar :=
  updateLast_lastAnnualized _ _ _ (topUpStep_history_ne_nil cfg drop st d p h)

/-- The holding period computed by a simulated day is the inclusive day
count from the first trade date. -/
theorem stepDay_holding (cfg : Config) (drop : ℚ) (firstDate : ℤ)
    (st : SimState) (d : ℤ) (p : ℚ) :
    (stepDay cfg drop firstDate st d p).holding = d - firstDate + 1 := rfl

/-- Fallback shape of the day loop: when no exit condition ever fires,
the returned record carries the last processed day's date, its inclusive
holding count and the annualized return stored on the last history
row. -/
theorem simLoop_fallback (cfg : Config) (drop : ℚ) (fd sd : ℤ) :
    ∀ (days : List (ℤ × ℚ)) (st : SimState) (ann : ℚ) (ld lh : ℤ),
      st.history ≠ [] → ann = lastAnnualized st.history → lh = ld - fd + 1 →
      (simLoop cfg drop fd sd days st ann ld lh).exit_reason = none →
      (simLoop cfg drop fd sd days st ann ld lh).end_date = lastDateD days ld ∧
      (simLoop cfg drop fd sd days st ann ld lh).holding_days
        = (simLoop cfg drop fd sd days st ann ld lh).end_date - fd + 1 ∧
      (simLoop cfg drop fd sd days st ann ld lh).final_annualized_return
        = lastAnnualized (simLoop cfg drop fd sd days st ann ld lh).history
  | [], st, ann, ld, lh, hne, hann, hlh, _ => by
    refine ⟨rfl, ?_, ?_⟩
    · show lh = ld - fd + 1
      exact hlh
    · show ann = lastAnnualized st.history
      exact hann
  | (d, p) :: rest, st, ann, ld, lh, hne, hann, hlh, hexit => by
    simp only [simLoop] at hexit ⊢
    cases hE : exitCheck cfg (stepDay cfg drop fd st d p).holding
        (stepDay cfg drop fd st d p).ar
        (stepDay cfg drop fd st d p).st.top_ups_left rest.isEmpty with
    | some reason =>
      rw [hE] at hexit
      exact absurd hexit (by simp)
    | none =>
      rw [hE] at hexit
      exact simLoop_fallback cfg drop fd sd rest _ _ _ _
        (stepDay_history_ne_nil cfg drop fd st d p hne)
        (stepDay_lastAnnualized cfg drop fd st d p hne).symm
        (stepDay_holding cfg drop fd st d p)
        hexit

/-- C7: whenever the filtered series has at least 20 points the
simulation returns a result; and when the day loop exhausts all days
without an exit condition firing, that result carries the last series
date, the inclusive day count from the first trade date, and the
annualized return computed on the last day (the value stored on the last
history row). -/
theorem simulation_fallback_result (cfg : Config) (df : List (ℤ × ℚ))
    (start_date : ℤ) (drop_percentage : ℚ)
    (h20 : 20 ≤ (df.filter (fun r => decide (start_date ≤ r.1))).length) :
    (run_backtest_simulation cfg df start_date drop_percentage).isSome = true ∧
    ∀ r ∈ run_backtest_simulation cfg df start_date drop_percentage,
      r.exit_reason = none →
      r.end_date = lastDateD (df.filter (fun x => decide (start_date ≤ x.1))) 0 ∧
      r.holding_days
        = r.end_date - firstDateD (df.filter (fun x => decide (start_date ≤ x.1))) 0 + 1 ∧
      r.final_annualized_return = lastAnnualized r.history := by
  refine ⟨run_isSome_of_length cfg df start_date drop_percentage h20, ?_⟩
  intro r hr hexit
  rw [Option.mem_def] at hr
  obtain ⟨d0, p0, rest, htd, hrr⟩ :=
    run_eq_simLoop cfg df start_date drop_percentage r hr
  subst hrr
  rw [htd]
  have hfb := simLoop_fallback cfg drop_percentage d0 start_date rest
    (initState cfg d0 p0) 0 d0 1
    (by simp [initState])
    (by simp [initState, initEvent, lastAnnualized])
    (by omega)
    hexit
  exact ⟨hfb.1, hfb.2.1, hfb.2.2⟩

/-- C7, witness: the 20-day flat series returns a result. -/
theorem simulation_fallback_result_witness :
    (run_backtest_simulation defaultConfig flat20 0 (1/20)).isSome = true :=
  (simulation_fallback_result defaultConfig flat20 0 (1/20) (by decide)).1

/-- Appending one row dated the current day to a history whose dates
are strictly increasing and all before that day keeps the dates strictly
increasing and bounded by the day. -/
theorem snoc_dates (hist : List TradeEvent) (ev : TradeEvent) (d : ℤ)
    (hev : ev.date = d)
    (hp : (hist.map (fun e => e.date)).Pairwise (fun a b => a < b))
    (hb : ∀ e ∈ hist, e.date < d) :
    (((hist ++ [ev]).map (fun e => e.date)).Pairwise (fun a b => a < b)) ∧
    (∀ e ∈ hist ++ [ev], e.date ≤ d) := by
  constructor
  · rw [List.map_append, List.pairwise_append]
    refine ⟨hp, by simp, ?_⟩
    intro a ha b hbb
    simp only [List.map_cons, List.map_nil, List.mem_singleton] at hbb
    obtain ⟨e, he, rfl⟩ := List.mem_map.mp ha
    rw [hbb, hev]
    exact hb e he
  · intro e he
    rcases List.mem_append.mp he with he | he
    · exact le_of_lt (hb e he)
    · rw [List.mem_singleton.mp he, hev]

/-- The top-up step appends at most one row, dated the current day:
given strictly increasing history dates all before the current day, the
dates stay strictly increasing and bounded by the current day. -/
theorem topUpStep_dates (cfg : Config) (drop : ℚ) (st : SimState)
    (d : ℤ) (p : ℚ)
    (hp : (st.history.map (fun e => e.date)).Pairwise (fun a b => a < b))
    (hb : ∀ e ∈ st.history, e.date < d) :
    ((topUpStep cfg drop st d p).history.map (fun e => e.date)).Pairwise
        (fun a b => a < b) ∧
    (∀ e ∈ (topUpStep cfg drop st d p).history, e.date ≤ d) := by
  unfold topUpStep
  split
  case isTrue hc => exact snoc_dates st.history _ d rfl hp hb
  case isFalse =>
    exact ⟨hp, fun e he => le_of_lt (hb e he)⟩

/-- A full simulated day preserves strictly increasing history dates
bounded by the current day: the in-place return update does not change
any date. -/
theorem stepDay_dates (cfg : Config) (drop : ℚ) (firstDate : ℤ)
    (st : SimState) (d : ℤ) (p : ℚ)
    (hp : (st.history.map (fun e => e.date)).Pairwise (fun a b => a < b))
    (hb : ∀ e ∈ st.history, e.date < d) :
    (((stepDay cfg drop firstDate st d p).st.history.map
        (fun e => e.date)).Pairwise (fun a b => a < b)) ∧
    (∀ e ∈ (stepDay cfg drop firstDate st d p).st.history, e.date ≤ d) := by
  obtain ⟨hp1, hb1⟩ := topUpStep_dates cfg drop st d p hp hb
  constructor
  · show ((updateLast _ _ _).map (fun e => e.date)).Pairwise (fun a b => a < b)
    rw [updateLast_map_date]
    exact hp1
  · intro e he
    obtain ⟨e0, he0, hc⟩ := updateLast_mem _ _ _ e he
    rw [hc.1]
    exact hb1 e0 he0

/-- Along the whole day loop over a strictly increasing series, the
history dates stay strictly increasing. -/
theorem simLoop_dates (cfg : Config) (drop : ℚ) (fd sd : ℤ) :
    ∀ (days : List (ℤ × ℚ)) (st : SimState) (ann : ℚ) (ld lh : ℤ),
      (days.map Prod.fst).Pairwise (fun a b => a < b) →
      (∀ e ∈ st.history, ∀ q ∈ days, e.date < q.1) →
      (st.history.map (fun e => e.date)).Pairwise (fun a b => a < b) →
      (((simLoop cfg drop fd sd days st ann ld lh).history.map
          (fun e => e.date)).Pairwise (fun a b => a < b))
  | [], st, ann, ld, lh, _, _, hp => hp
  | (d, p) :: rest, st, ann, ld, lh, hdays, hb, hp => by
    have hbd : ∀ e ∈ st.history, e.date < d := by
      intro e he
      exact hb e he (d, p) (List.mem_cons_self _ _)
    obtain ⟨hp2, hb2⟩ := stepDay_dates cfg drop fd st d p hp hbd
    have hdlt : ∀ q ∈ rest, d < q.1 := by
      intro q hq
      rw [List.map_cons] at hdays
      exact (List.pairwise_cons.mp hdays).1 q.1 (List.mem_map_of_mem _ hq)
    simp only [simLoop]
    cases hE : exitCheck cfg (stepDay cfg drop fd st d p).holding
        (stepDay cfg drop fd st d p).ar
        (stepDay cfg drop fd st d p).st.top_ups_left rest.isEmpty with
    | some reason => exact hp2
    | none =>
      refine simLoop_dates cfg drop fd sd rest _ _ _ _ ?_ ?_ hp2
      · rw [List.map_cons] at hdays
        exact (List.pairwise_cons.mp hdays).2
      · intro e he q hq
        exact lt_of_le_of_lt (hb2 e he) (hdlt q hq)

/-- A history with strictly increasing dates has at most one row per
date matching any predicate that fixes the date. -/
theorem filter_date_count_le_one (h : List TradeEvent) (d : ℤ)
    (hp : (h.map (fun e => e.date)).Pairwise (fun a b => a < b)) :
    (h.filter (fun e => decide (e.action = TradeAction.TOP_UP ∧ e.date = d))).length
      ≤ 1 := by
  cases hf : h.filter (fun e => decide (e.action = TradeAction.TOP_UP ∧ e.date = d)) with
  | nil => simp
  | cons a t =>
    cases t with
    | nil => simp
    | cons b t2 =>
      exfalso
      have hsub : List.Sublist
          ((h.filter
            (fun e => decide (e.action = TradeAction.TOP_UP ∧ e.date = d))).map
            (fun e => e.date))
          (h.map (fun e => e.date)) :=
        List.Sublist.map _ (List.filter_sublist h)
      have hp2 := hp.sublist hsub
      rw [hf] at hp2
      simp only [List.map_cons] at hp2
      have hab : a.date < b.date :=
        (List.pairwise_cons.mp hp2).1 b.date (by simp)
      have ha : a ∈ h.filter (fun e => decide (e.action = TradeAction.TOP_UP ∧ e.date = d)) := by
        rw [hf]; exact List.mem_cons_self _ _
      have hbm : b ∈ h.filter (fun e => decide (e.action = TradeAction.TOP_UP ∧ e.date = d)) := by
        rw [hf]; exact List.mem_cons_of_mem _ (List.mem_cons_self _ _)
      have hda : a.date = d := by
        have h2 := (List.mem_filter.mp ha).2
        simp only [decide_eq_true_eq] at h2
        exact h2.2
      have hdb : b.date = d := by
        have h2 := (List.mem_filter.mp hbm).2
        simp only [decide_eq_true_eq] at h2
        exact h2.2
      rw [hda, hdb] at hab
      exact lt_irrefl d hab

/-- C10: over a series with strictly increasing dates, every simulation
run appends at most one TOP_UP row per trading date, however far the
close falls below the trigger level. -/
theorem one_topUp_per_date (cfg : Config) (df : List (ℤ × ℚ))
    (start_date : ℤ) (drop_percentage : ℚ)
    (hs : (df.map Prod.fst).Pairwise (fun a b => a < b)) (d : ℤ) :
    ((simHistory cfg df start_date drop_percentage).filter
        (fun e => decide (e.action = TradeAction.TOP_UP ∧ e.date = d))).length
      ≤ 1 := by
  unfold simHistory
  cases hrun : run_backtest_simulation cfg df start_date drop_percentage with
  | none => simp
  | some r =>
    obtain ⟨d0, p0, rest, htd, hr⟩ :=
      run_eq_simLoop cfg df start_date drop_percentage r hrun
    subst hr
    apply filter_date_count_le_one _ d
    have hfsub : List.Sublist
        ((df.filter (fun x => decide (start_date ≤ x.1))).map Prod.fst)
        (df.map Prod.fst) :=
      List.Sublist.map _ (List.filter_sublist df)
    have hfp := hs.sublist hfsub
    rw [htd, List.map_cons] at hfp
    obtain ⟨hd0, hrest⟩ := List.pairwise_cons.mp hfp
    apply simLoop_dates cfg drop_percentage d0 start_date rest
      (initState cfg d0 p0) 0 d0 1 hrest
    · intro e he q hq
      simp only [initState, List.mem_singleton] at he
      rw [he]
      show d0 < q.1
      exact hd0 q.1 (List.mem_map_of_mem _ hq)
    · simp [initState]

/-- C10, witness: the 25-day falling scenario has at most one TOP_UP on
day 6. -/
theorem one_topUp_per_date_witness :
    ((simHistory defaultConfig scenarioSeries 0 (1/20)).filter
        (fun e => decide (e.action = TradeAction.TOP_UP ∧ e.date = 6))).length
      ≤ 1 :=
  one_topUp_per_date defaultConfig scenarioSeries 0 (1/20) (by decide) 6

/-- Python's `max` keeps the first maximum: the fold result splits the
scanned list into a strict-prefix of strictly smaller keys, the result
itself, and a suffix of keys no larger. -/
theorem pyMaxBy_first_max :
    ∀ (xs : List (ℚ × ℚ)) (acc : ℚ × ℚ),
      ∃ pre suf, acc :: xs = pre ++ pyMaxBy acc xs :: suf ∧
        (∀ z ∈ pre, z.2 < (pyMaxBy acc xs).2) ∧
        (∀ z ∈ acc :: xs, z.2 ≤ (pyMaxBy acc xs).2)
  | [], acc => ⟨[], [], rfl, by simp, by simp [pyMaxBy]⟩
  | y :: ys, acc => by
    by_cases h : acc.2 < y.2
    · have hres : pyMaxBy acc (y :: ys) = pyMaxBy y ys := by
        simp [pyMaxBy, h]
      obtain ⟨pre, suf, hsplit, hpre, hall⟩ := pyMaxBy_first_max ys y
      rw [hres]
      have hy : y.2 ≤ (pyMaxBy y ys).2 := hall y (List.mem_cons_self _ _)
      refine ⟨acc :: pre, suf, ?_, ?_, ?_⟩
      · rw [List.cons_append, ← hsplit]
      · intro z hz
        rcases List.mem_cons.mp hz with rfl | hz
        · exact lt_of_lt_of_le h hy
        · exact hpre z hz
      · intro z hz
        rcases List.mem_cons.mp hz with rfl | hz
        · exact le_of_lt (lt_of_lt_of_le h hy)
        · exact hall z hz
    · have hres : pyMaxBy acc (y :: ys) = pyMaxBy acc ys := by
        simp [pyMaxBy, h]
      obtain ⟨pre, suf, hsplit, hpre, hall⟩ := pyMaxBy_first_max ys acc
      rw [hres]
      have hyacc : y.2 ≤ acc.2 := le_of_not_lt h
      have hacc : acc.2 ≤ (pyMaxBy acc ys).2 := hall acc (List.mem_cons_self _ _)
      cases pre with
      | nil =>
        simp only [List.nil_append] at hsplit
        injection hsplit with h1 h2
        refine ⟨[], y :: ys, ?_, by simp, ?_⟩
        · rw [List.nil_append, ← h1]
        · intro z hz
          rcases List.mem_cons.mp hz with rfl | hz
          · exact hacc
          rcases List.mem_cons.mp hz with rfl | hz
          · exact le_trans hyacc hacc
          · exact hall z (List.mem_cons_of_mem _ hz)
      | cons a pre2 =>
        injection hsplit with h1 h2
        rw [List.append_eq] at h2
        refine ⟨acc :: y :: pre2, suf, ?_, ?_, ?_⟩
        · rw [List.cons_append, List.cons_append, ← h2]
        · intro z hz
          have haccpre : acc.2 < (pyMaxBy acc ys).2 := by
            have := hpre a (List.mem_cons_self _ _)
            rw [← h1] at this
            exact this
          rcases List.mem_cons.mp hz with rfl | hz
          · exact haccpre
          rcases List.mem_cons.mp hz with rfl | hz
          · exact lt_of_le_of_lt hyacc haccpre
          · exact hpre z (List.mem_cons_of_mem _ hz)
        · intro z hz
          rcases List.mem_cons.mp hz with rfl | hz
          · exact hacc
          rcases List.mem_cons.mp hz with rfl | hz
          · exact le_trans hyacc hacc
          · exact hall z (List.mem_cons_of_mem _ hz)

/-- The thresholds of the results table form a subsequence of the
threshold grid, in grid order. -/
theorem searchLoop_sublist (cfg : Config) (runs : ℕ) (df : List (ℤ × ℚ))
    (pool : List ℤ) (rng : ℕ → ℕ) :
    ∀ (ts : List ℚ) (base : ℕ) (res : List (ℚ × ℚ)),
      searchLoop cfg runs df pool rng ts base = Except.ok res →
      List.Sublist (res.map Prod.fst) ts
  | [], base, res, h => by
    simp only [searchLoop, Except.ok.injEq] at h
    rw [← h]
    simp
  | t :: ts, base, res, h => by
    simp only [searchLoop] at h
    split at h
    next e heq => exact absurd h (by simp)
    next rs heq =>
      split at h
      next e2 heq2 => exact absurd h (by simp)
      next rest hs =>
        have ih := searchLoop_sublist cfg runs df pool rng ts (base + runs) rest hs
        split at h
        · simp only [Except.ok.injEq] at h
          rw [← h]
          exact ih.cons t
        · simp only [Except.ok.injEq] at h
          rw [← h]
          simp only [List.map_cons]
          exact ih.cons₂ t

/-- The threshold grid is strictly increasing. -/
theorem dropGrid_sorted : dropGrid.Pairwise (fun a b => a < b) := by
  with_unfolding_all decide

/-- C8: whenever the results table is nonempty, the search returns the
threshold of Python's `max` over it; that row attains the maximal mean
annualized return, and on ties it is the row with the smallest
threshold, the first in ascending grid order. -/
theorem search_stable_argmax (cfg : Config) (runs : ℕ) (df : List (ℤ × ℚ))
    (rng : ℕ → ℕ) (x : ℚ × ℚ) (xs : List (ℚ × ℚ))
    (h : searchResults cfg runs df rng = Except.ok (x :: xs)) :
    find_optimal_drop_percentage cfg runs df rng
      = SearchOutcome.found (pyMaxBy x xs).1 ∧
    pyMaxBy x xs ∈ x :: xs ∧
    (∀ y ∈ x :: xs, y.2 ≤ (pyMaxBy x xs).2) ∧
    (∀ y ∈ x :: xs, y.2 = (pyMaxBy x xs).2 → (pyMaxBy x xs).1 ≤ y.1) := by
  obtain ⟨pre, suf, hsplit, hpre, hall⟩ := pyMaxBy_first_max xs x
  have hmem : pyMaxBy x xs ∈ x :: xs := by
    rw [hsplit]
    exact List.mem_append.mpr (Or.inr (List.mem_cons_self _ _))
  refine ⟨?_, hmem, hall, ?_⟩
  · unfold find_optimal_drop_percentage
    rw [h]
  · have hsub := searchLoop_sublist cfg runs df (startPool df) rng dropGrid 0 (x :: xs) h
    have hsorted : ((x :: xs).map Prod.fst).Pairwise (fun a b => a < b) :=
      dropGrid_sorted.sublist hsub
    rw [List.pairwise_map] at hsorted
    intro z hz hz2
    rw [hsplit] at hz hsorted
    rcases List.mem_append.mp hz with hz | hz
    · exact absurd hz2 (ne_of_lt (hpre z hz))
    · rcases List.mem_cons.mp hz with rfl | hz
      · exact le_refl _
      · have h2 := (List.pairwise_append.mp hsorted).2.1
        exact le_of_lt ((List.pairwise_cons.mp h2).1 z hz)

/-- C8, witness: with one sample per threshold over the flat `w8Series`
every threshold scores a mean of zero, and the search returns the first
row of the results table, the smallest threshold 1%. -/
theorem search_stable_argmax_witness :
    find_optimal_drop_percentage defaultConfig 1 w8Series (fun _ => 0)
      = SearchOutcome.found
          (pyMaxBy ((1 : ℚ)/100, 0)
            ((List.range 19).map (fun i => (((i : ℚ) + 2)/100, (0 : ℚ))))).1 :=
  (search_stable_argmax defaultConfig 1 w8Series (fun _ => 0) ((1 : ℚ)/100, 0)
    ((List.range 19).map (fun i => (((i : ℚ) + 2)/100, (0 : ℚ))))
    (by with_unfolding_all decide)).1

/-- C9: the loader returns the DataUnavailable sentinel `none` exactly
when the source is missing, and when the source is readable but the
five-year trailing-window filter removes every row it returns the empty
sequence, not an error. -/
theorem load_data_errors (src : Option (List (ℤ × ℚ))) (now : ℤ) :
    (load_data src now = none ↔ src = none) ∧
    (∀ rows, src = some rows → (∀ r ∈ rows, r.1 < now - 5 * 365) →
      load_data src now = some []) := by
  constructor
  · cases src with
    | none => simp [load_data]
    | some rows => simp [load_data]
  · intro rows hsrc hall
    subst hsrc
    simp only [load_data]
    have hfil : rows.filter (fun r => decide (now - 5 * 365 ≤ r.1)) = [] := by
      rw [List.filter_eq_nil_iff]
      intro a ha
      simp only [decide_eq_true_eq, not_le]
      exact hall a ha
    rw [hfil]
    rfl

/-- C9, witness: a readable one-row source entirely before the window
yields the empty sequence. -/
theorem load_data_errors_witness :
    load_data (some [((0 : ℤ), (100 : ℚ))]) 2000 = some [] :=
  (load_data_errors (some [((0 : ℤ), (100 : ℚ))]) 2000).2
    [((0 : ℤ), (100 : ℚ))] rfl (by decide)
